import Mathlib

/-!
Verification of the core work-log processing logic of the OpenProject
time-logging browser extension: subject normalization and the paginated
duplicate lookup of the API client, the remote-state pipeline
(work-package reuse/creation and time-entry idempotence), canonical date
parsing and calendar validation, the start/end time chaining computation
of the work-log service, the entry categorizer, and the service
processing loop with its aggregate counters.

JavaScript numbers are modelled as Nat / Int / ℚ; JavaScript strings are
modelled as lists of characters so that every string operation of the
source is an executable structural function; wall-clock times of day are
minute counts; the remote OpenProject instance is modelled as an explicit
state record threaded through the operations, and remote calls that the
source merely awaits are modelled as pure state transitions.
-/

/-- JavaScript strings, modelled as their character sequences. -/
abbrev JStr := List Char

/-- JavaScript Math.round: round half toward positive infinity. -/
def jsRound (q : ℚ) : Int := Rat.floor (q + 1/2)

/-- JavaScript String.prototype.trim: drop whitespace from both ends. -/
def jsTrim (s : JStr) : JStr :=
  ((s.dropWhile Char.isWhitespace).reverse.dropWhile Char.isWhitespace).reverse

/-- JavaScript String.prototype.toLowerCase, on the character range the
source works with. -/
def jsToLower (s : JStr) : JStr := s.map Char.toLower

/-- JavaScript String.prototype.split at a single-character separator. -/
def splitOnChar (c : Char) (s : JStr) : List JStr :=
  s.foldr
    (fun ch acc =>
      if ch = c then [] :: acc
      else
        match acc with
        | h :: t => (ch :: h) :: t
        | [] => [[ch]])
    [[]]

/-- Numeric value of a list of decimal digit characters. -/
def digitsVal (ds : JStr) : Nat :=
  ds.foldl (fun a c => a * 10 + (c.toNat - 48)) 0

/-- JavaScript parseInt on a string: parse the longest digit prefix,
NaN (modelled as none) when it is empty. -/
def jsParseInt (s : JStr) : Option Nat :=
  let ds := s.takeWhile Char.isDigit
  if ds.isEmpty then none else some (digitsVal ds)

/-- JavaScript String(n).padStart(2, "0") for an integer. -/
def padTwo (n : Int) : JStr :=
  let s : JStr := if n < 0 then '-' :: Nat.toDigits 10 (-n).toNat else Nat.toDigits 10 n.toNat
  if s.length < 2 then '0' :: s else s

/-- JavaScript truthiness filter for an optional numeric id: null, undefined
and 0 are falsy, every other id is kept. -/
def truthyId (x : Option Nat) : Option Nat :=
  match x with
  | some n => if n = 0 then none else some n
  | none => none

/-- Subject normalization used throughout the duplicate lookup:
subject.trim().toLowerCase(). -/
def normalizeSubject (s : JStr) : JStr := jsToLower (jsTrim s)

/-- A work package as stored by the remote system; only the fields the
work-log core reads (id, containing project, subject) are modelled. -/
structure WorkPackage where
  id : Nat
  projectId : Nat
  subject : JStr
deriving DecidableEq

/-- A remote time entry; spentOn is the canonical YYYY-MM-DD date string. -/
structure TimeEntry where
  id : Nat
  workPackageId : Nat
  spentOn : JStr
  hours : ℚ
  comment : JStr
deriving DecidableEq

/-- The remote OpenProject state visible to the extension: the work-package
and time-entry collections plus the id counters the server draws fresh ids
from.  Creations append; nothing in the modelled code deletes. -/
structure RemoteState where
  workPackages : List WorkPackage
  timeEntries : List TimeEntry
  nextWpId : Nat
  nextTeId : Nat
deriving DecidableEq

/-- The work packages of one project, in the server's fetch order
(the collection behind /projects/{id}/work_packages). -/
def projectWorkPackages (s : RemoteState) (projectId : Nat) : List WorkPackage :=
  s.workPackages.filter (fun wp => wp.projectId == projectId)

/-- Model of findMatchingWorkPackage from the API client: the first element
of the page whose trimmed, lower-cased subject equals the already-normalized
query subject.  The source additionally logs partial (substring) matches
without returning them; logging is not modelled. -/
def findMatchingWorkPackage (workPackages : List WorkPackage) (normalizedSubject : JStr) :
    Option WorkPackage :=
  workPackages.find? (fun wp => normalizeSubject wp.subject == normalizedSubject)

/-- Model of shouldFetchNextPage from the API client: fetch another page
exactly when the current page was full. -/
def shouldFetchNextPage (pageSize currentPageCount : Nat) : Bool :=
  !(currentPageCount < pageSize)

/-- The pagination loop of checkExistingWorkPackageBySubject.  The remote
serves fixed pages of 100 items at 1-based page offsets, so the page at
offset k is the 100-item slice after dropping (k-1)·100 items and the loop
walks the not-yet-fetched suffix.  The extra fuel argument only bounds the
iteration count so the loop is structurally recursive; it never runs out
when it starts at one more than the item count, because every iteration
consumes a full page.  Returns the lookup result together with the number
of page fetches issued. -/
def scanPagesGo (normalizedSubject : JStr) : Nat → List WorkPackage → Option WorkPackage × Nat
  | 0, _ => (none, 0)
  | fuel + 1, remaining =>
    if (remaining.take 100).length = 0 then (none, 1)
    else
      match findMatchingWorkPackage (remaining.take 100) normalizedSubject with
      | some wp => (some wp, 1)
      | none =>
        if shouldFetchNextPage 100 (remaining.take 100).length = true then
          let r := scanPagesGo normalizedSubject fuel (remaining.drop 100)
          (r.1, r.2 + 1)
        else (none, 1)

/-- One full pagination scan over a project's work packages. -/
def scanPages (normalizedSubject : JStr) (remaining : List WorkPackage) :
    Option WorkPackage × Nat :=
  scanPagesGo normalizedSubject (remaining.length + 1) remaining

/-- Model of checkExistingWorkPackageBySubject: normalize the query subject
and scan the project's work packages page by page for an exact match.
Remote errors are caught inside the source function (it returns null on
failure), so the modelled remote never fails here. -/
def checkExistingWorkPackageBySubject (s : RemoteState) (projectId : Nat) (subject : JStr) :
    Option WorkPackage :=
  (scanPages (normalizeSubject subject) (projectWorkPackages s projectId)).1

/-- Number of page fetches issued by one duplicate lookup. -/
def lookupFetchCount (s : RemoteState) (projectId : Nat) (subject : JStr) : Nat :=
  (scanPages (normalizeSubject subject) (projectWorkPackages s projectId)).2

/-- Model of createWorkPackage: re-check for an existing work package with
the same normalized subject and return it unchanged if found; otherwise the
remote appends a fresh work package carrying the requested subject.
The request body built by buildWorkPackageData (type/status/assignee links,
description) does not influence the modelled fields. -/
def createWorkPackage (s : RemoteState) (projectId : Nat) (subject : JStr) :
    WorkPackage × RemoteState :=
  match checkExistingWorkPackageBySubject s projectId subject with
  | some existing => (existing, s)
  | none =>
    let wp : WorkPackage := { id := s.nextWpId, projectId := projectId, subject := subject }
    (wp, { s with workPackages := s.workPackages ++ [wp], nextWpId := s.nextWpId + 1 })

/-! Lemmas about the paginated lookup. -/

/-- The subject-match predicate used by the page scan. -/
def subjectMatches (normalizedSubject : JStr) (wp : WorkPackage) : Bool :=
  normalizeSubject wp.subject == normalizedSubject

/-! The time-entry pipeline of the API client. -/

/-- The regex ^\d{4}-\d{2}-\d{2}$ of parseAndFormatDate and
formatDateForComparison: a canonical YYYY-MM-DD date string. -/
def isCanonicalDate (d : JStr) : Bool :=
  match d with
  | [y1, y2, y3, y4, c1, m1, m2, c2, d1, d2] =>
    [y1, y2, y3, y4, m1, m2, d1, d2].all Char.isDigit && c1 == '-' && c2 == '-'
  | _ => false

/-- JavaScript String.prototype.includes for a single character. -/
def includesChar (s : JStr) (c : Char) : Bool :=
  match s with
  | [] => false
  | a :: rest => if a = c then true else includesChar rest c

/-- Model of parseAndFormatDate from the API client: an ISO string is cut at
its T, a canonical date is returned unchanged.  The source's final branch
feeds any other input to the platform Date parser; the pipeline only ever
passes canonical dates or ISO strings there, so that fallback is modelled
as the thrown "Invalid time value" error. -/
def parseAndFormatDate (date : JStr) : Except String JStr :=
  if includesChar date 'T' then .ok ((splitOnChar 'T' date).getD 0 [])
  else if isCanonicalDate date then .ok date
  else .error "Invalid time value for date"

/-- Model of formatDateForComparison: canonical date strings are returned
unchanged.  The source branch that reformats any other input through the
platform Date library is not modelled (the pipeline only compares the
parser's canonical dates). -/
def formatDateForComparison (date : JStr) : JStr := date

/-- Model of validateHours: reject non-positive hours (NaN, the other
rejected input, has no counterpart in ℚ). -/
def validateHours (hours : ℚ) : Except String Unit :=
  if hours ≤ 0 then .error "Invalid hours value" else .ok ()

/-- The regex ^\d{1,2}:\d{2}$ guarding the comment time bracket. -/
def isTimeHM (t : JStr) : Bool :=
  match splitOnChar ':' t with
  | [h, m] => (h.length == 1 || h.length == 2) && h.all Char.isDigit
      && m.length == 2 && m.all Char.isDigit
  | _ => false

/-- Model of calculateEndTime from the API client: split at the colon,
parse the two fields (parseInt(x) || 0), add the rounded minutes and wrap
into a 24-hour day with zero-padded rendering. -/
def calculateEndTime (startTime : JStr) (hours : ℚ) : JStr :=
  let parts := splitOnChar ':' startTime
  let startHour : Nat := (jsParseInt (parts.getD 0 [])).getD 0
  let startMinute : Nat := (jsParseInt (parts.getD 1 [])).getD 0
  let additionalMinutes := jsRound (hours * 60)
  let totalMinutes : Int := startHour * 60 + startMinute + additionalMinutes
  let newHours := (totalMinutes.fdiv 60).tmod 24
  let newMinutes := totalMinutes.tmod 60
  padTwo newHours ++ [':'] ++ padTwo newMinutes

/-- Model of the API client's formatTime12Hour: split at the colon, read
hour and minute, and render in 12-hour form with AM/PM. -/
def formatTime12Hour (time24 : JStr) : JStr :=
  let parts := (splitOnChar ':' time24).map (fun p => (jsParseInt p).getD 0)
  let hour : Nat := parts.getD 0 0
  let minute : Nat := parts.getD 1 0
  let period : JStr := if 12 ≤ hour then "PM".data else "AM".data
  let hour12 : Nat := if hour = 0 then 12 else if 12 < hour then hour - 12 else hour
  Nat.toDigits 10 hour12 ++ [':'] ++ padTwo (minute : Int) ++ [' '] ++ period

/-- Model of buildEnhancedComment: when the start time looks like H:MM or
HH:MM, prepend the 12-hour [start - end] bracket to the free-text comment. -/
def buildEnhancedComment (startTime : Option JStr) (hours : ℚ) (comment : JStr) : JStr :=
  match startTime with
  | some st =>
    if isTimeHM st then
      let endTime := calculateEndTime st hours
      let timeInfo := ['['] ++ formatTime12Hour st ++ " - ".data ++ formatTime12Hour endTime ++ [']']
      if comment.isEmpty then timeInfo else timeInfo ++ [' '] ++ comment
    else comment
  | none => comment

/-- Model of checkExistingTimeEntries: the remote time entries whose spentOn
equals the comparison form of the date and whose work-package id matches.
The source extracts the id from the workPackage link href and compares it
to workPackageId.toString(); both sides are modelled as the numeric id.
Remote errors are caught inside the source function (returning []), so the
modelled remote never fails here. -/
def checkExistingTimeEntries (s : RemoteState) (workPackageId : Nat) (date : JStr) :
    List TimeEntry :=
  let targetDate := formatDateForComparison date
  s.timeEntries.filter (fun te => te.spentOn == targetDate && te.workPackageId == workPackageId)

/-- Model of createTimeEntry: validate the date and the hours, build the
enhanced comment, and append a fresh time entry.  The activity-id mapping
only shapes the request body and is not a modelled field. -/
def createTimeEntry (s : RemoteState) (workPackageId : Nat) (date : JStr)
    (startTime : Option JStr) (hours : ℚ) (comment : JStr) :
    Except String (TimeEntry × RemoteState) :=
  match parseAndFormatDate date with
  | .error e => .error e
  | .ok formattedDate =>
    match validateHours hours with
    | .error e => .error e
    | .ok _ =>
      let enhancedComment := buildEnhancedComment startTime hours comment
      let te : TimeEntry := { id := s.nextTeId, workPackageId := workPackageId,
                              spentOn := formattedDate, hours := hours,
                              comment := enhancedComment }
      .ok (te, { s with timeEntries := s.timeEntries ++ [te], nextTeId := s.nextTeId + 1 })

/-- One work-log entry as consumed by processWorkLogEntries; the fields the
pipeline reads. -/
structure WorkLogEntry where
  project : JStr
  project_id : Nat
  subject : JStr
  work_package_id : Option Nat
  hours : ℚ
  activity : JStr
  start_time : Option JStr
  comment : JStr
deriving DecidableEq

/-- Per-entry outcome recorded on the detail object: the final status
string, the caught error message if any, and whether the entry counted as
successful. -/
structure EntryOutcome where
  status : String
  error : Option String
  succeeded : Bool
deriving DecidableEq

/-- Model of ensureWorkPackageExists: reuse a (truthy) linked id, else reuse
an exact-subject duplicate, else create.  Returns the resolved work-package
id, the possibly extended remote state, and the status recorded. -/
def ensureWorkPackageExists (s : RemoteState) (e : WorkLogEntry) :
    Nat × RemoteState × String :=
  match truthyId e.work_package_id with
  | some wpid => (wpid, s, "using_existing_work_package")
  | none =>
    match checkExistingWorkPackageBySubject s e.project_id e.subject with
    | some existing => (existing.id, s, "reused_existing_work_package")
    | none =>
      let r := createWorkPackage s e.project_id e.subject
      (r.1.id, r.2, "created_work_package")

/-- Model of addTimeEntry: skip creation when a time entry for the same
(work package, date) pair already exists, otherwise create one. -/
def addTimeEntry (s : RemoteState) (workPackageId : Nat) (e : WorkLogEntry) (date : JStr) :
    Except String (RemoteState × String) :=
  let existingTimeEntries := checkExistingTimeEntries s workPackageId date
  if 0 < existingTimeEntries.length then .ok (s, "skipped_duplicate_time_entry")
  else
    match createTimeEntry s workPackageId date e.start_time e.hours e.comment with
    | .error msg => .error msg
    | .ok r => .ok (r.2, "created_time_entry")

/-- Model of processWorkLogEntry: resolve the work package, then ensure the
time entry; any thrown error is caught locally and recorded, keeping the
state reached so far (the catch does not roll back a created work
package). -/
def processWorkLogEntry (s : RemoteState) (e : WorkLogEntry) (date : JStr) :
    RemoteState × EntryOutcome :=
  let r := ensureWorkPackageExists s e
  match addTimeEntry r.2.1 r.1 e date with
  | .ok res => (res.1, { status := res.2, error := none, succeeded := true })
  | .error msg => (r.2.1, { status := "error", error := some msg, succeeded := false })

/-- Model of processWorkLogEntries: the strictly sequential per-entry loop;
the successful/failed counters of the source are derivable from the
outcome list. -/
def processWorkLogEntries (s : RemoteState) (entries : List WorkLogEntry) (date : JStr) :
    RemoteState × List EntryOutcome :=
  match entries with
  | [] => (s, [])
  | e :: rest =>
    let r1 := processWorkLogEntry s e date
    let r2 := processWorkLogEntries r1.1 rest date
    (r2.1, r1.2 :: r2.2)

/-- The remote only grows: both collections receive appends only. -/
def StateExtends (s t : RemoteState) : Prop :=
  s.workPackages <+: t.workPackages ∧ s.timeEntries <+: t.timeEntries

/-! The start/end time chaining of the work-log service. -/

/-- One entry as seen by the chaining pass (calculateAllTimes /
processDateEntries of the work-log service).  Times of day are minute
counts (an HH:MM string is h·60+m); hours and break_hours are the parsed
JSON numbers (entry.hours ‖ entry.duration_hours and
entry.break_hours ‖ 0 of the source). -/
structure ChainEntry where
  is_scrum : Bool
  hours : ℚ
  break_hours : ℚ
  start_time : Option Int
  user_set_start_time : Bool
  calculated_start : Option Int
  calculated_end : Option Int
deriving DecidableEq

/-- Model of addHoursToTime from the work-log service: a falsy time (null)
or falsy hours (0) return the input unchanged; otherwise the hours are
turned into minutes with Math.round, added, and the result wrapped into a
24-hour day (Math.floor(total/60) % 24 hours and total % 60 minutes).
The string parsing and zero-padded rendering of the source are the
identity in the minute-count representation. -/
def addHoursToTime (t : Option Int) (hours : ℚ) : Option Int :=
  match t with
  | none => none
  | some tm =>
    if hours = 0 then some tm
    else
      let additionalMinutes := jsRound (hours * 60)
      let totalMinutes : Int := tm + additionalMinutes
      some ((totalMinutes.fdiv 60).tmod 24 * 60 + totalMinutes.tmod 60)

/-- Model of getFirstNonScrumStartTime: the anchor of a date group — an
already calculated start wins, otherwise a user-provided start time is
extracted from start_time (defaulting to 09:00 when extraction fails),
otherwise the group has no anchor yet. -/
def getFirstNonScrumStartTime (e : ChainEntry) : Option Int :=
  match e.calculated_start with
  | some t => some t
  | none =>
    if !e.user_set_start_time then none
    else
      match e.start_time with
      | some t => some t
      | none => some 540

/-- Model of findPreviousNonScrumEntry: the nearest preceding non-scrum
entry, searching the already processed prefix backwards. -/
def findPreviousNonScrumEntry (processedRev : List ChainEntry) : Option ChainEntry :=
  processedRev.find? (fun x => !x.is_scrum)

/-- Model of processScrumEntry: a scrum entry keeps an already set
calculated start and otherwise receives the fixed 10:00 slot; its end is
its start plus its duration.  (The missing-work-package validation issue
it can report is not modelled.) -/
def processScrumEntry (e : ChainEntry) : ChainEntry :=
  let st := match e.calculated_start with
    | none => some 600
    | some t => some t
  { e with calculated_start := st, calculated_end := addHoursToTime st e.hours }

/-- Model of the forEach of processDateEntries (work-log service): scrum
entries are handled in place by processScrumEntry and do not touch the
running chain; the first non-scrum entry is anchored by
getFirstNonScrumStartTime; every later non-scrum entry starts at the
nearest preceding non-scrum entry's calculated end plus its own break
hours (getSubsequentStartTime), and every entry's end is its start plus
its duration (setEntryTimes).  The processed prefix is carried reversed,
mirroring the in-place array updates the backward search reads; the
overlap check only reports and is not modelled. -/
def chainGo : List ChainEntry → List ChainEntry → Bool → List ChainEntry
  | [], processedRev, _ => processedRev.reverse
  | e :: rest, processedRev, isFirstNonScrum =>
    if e.is_scrum then
      chainGo rest (processScrumEntry e :: processedRev) isFirstNonScrum
    else
      let cur :=
        if isFirstNonScrum then getFirstNonScrumStartTime e
        else
          match findPreviousNonScrumEntry processedRev with
          | none => none
          | some prev => addHoursToTime prev.calculated_end e.break_hours
      let e2 := { e with calculated_start := cur, calculated_end := addHoursToTime cur e.hours }
      chainGo rest (e2 :: processedRev) false

/-- Model of processDateEntries of the work-log service on one (already
sorted) date group. -/
def processDateEntries (entries : List ChainEntry) : List ChainEntry :=
  chainGo entries [] true

/-- The still-to-come part of the chaining output: chainGo with the
processed prefix stripped (chainGo rest pr f = pr.reverse ++ chainTail
rest pr f). -/
def chainTail : List ChainEntry → List ChainEntry → Bool → List ChainEntry
  | [], _, _ => []
  | e :: rest, processedRev, isFirstNonScrum =>
    if e.is_scrum then
      processScrumEntry e :: chainTail rest (processScrumEntry e :: processedRev) isFirstNonScrum
    else
      let cur :=
        if isFirstNonScrum then getFirstNonScrumStartTime e
        else
          match findPreviousNonScrumEntry processedRev with
          | none => none
          | some prev => addHoursToTime prev.calculated_end e.break_hours
      let e2 := { e with calculated_start := cur, calculated_end := addHoursToTime cur e.hours }
      e2 :: chainTail rest (e2 :: processedRev) false

/-- The nearest preceding non-scrum entry before position i of a processed
date group. -/
def prevNonScrum (l : List ChainEntry) (i : Nat) : Option ChainEntry :=
  (l.take i).reverse.find? (fun x => !x.is_scrum)

/-- Model of calculateStartTime from the parser: a scrum entry is pinned to
10:00 (setHours(10, 0, 0, 0)) regardless of the running start time and
break; a non-scrum entry starts after its break.  Times are minutes of the
day. -/
def calculateStartTime (isScrum : Bool) (startTime : Int) (breakMinutes : Int) : Int :=
  if isScrum then 600 else startTime + breakMinutes

/-- The entry produced for a non-scrum element of the group, given the
processed prefix (reversed) and the first-non-scrum flag. -/
def chainStep (e : ChainEntry) (pr : List ChainEntry) (f : Bool) : ChainEntry :=
  let cur :=
    if f then getFirstNonScrumStartTime e
    else
      match findPreviousNonScrumEntry pr with
      | none => none
      | some prev => addHoursToTime prev.calculated_end e.break_hours
  { e with calculated_start := cur, calculated_end := addHoursToTime cur e.hours }

/-- Default entry used to sample processed date groups. -/
def chainDflt : ChainEntry :=
  { is_scrum := false, hours := 0, break_hours := 0, start_time := none,
    user_set_start_time := false, calculated_start := none, calculated_end := none }

/-- Example date group: a 2.5h task anchored at 11:00 followed by a 4.5h
task after a 0.33h break. -/
def chainDemo : List ChainEntry :=
  [{ is_scrum := false, hours := 5/2, break_hours := 0, start_time := none,
     user_set_start_time := true, calculated_start := some 660, calculated_end := none },
   { is_scrum := false, hours := 9/2, break_hours := 33/100, start_time := none,
     user_set_start_time := false, calculated_start := none, calculated_end := none }]

/-- Example date group containing one scrum entry. -/
def scrumDemo : List ChainEntry :=
  [{ is_scrum := true, hours := 1/2, break_hours := 0, start_time := none,
     user_set_start_time := false, calculated_start := none, calculated_end := none }]

/-! Canonical date parsing and calendar validation of the parser. -/

/-- The month-name table of getMonthNames: abbreviations and full names,
with sep and sept both mapping to September. -/
def getMonthNames : List (JStr × Nat) :=
  [("jan".data, 1), ("january".data, 1), ("feb".data, 2), ("february".data, 2),
   ("mar".data, 3), ("march".data, 3), ("apr".data, 4), ("april".data, 4),
   ("may".data, 5), ("jun".data, 6), ("june".data, 6), ("jul".data, 7),
   ("july".data, 7), ("aug".data, 8), ("august".data, 8), ("sep".data, 9),
   ("sept".data, 9), ("september".data, 9), ("oct".data, 10), ("october".data, 10),
   ("nov".data, 11), ("november".data, 11), ("dec".data, 12), ("december".data, 12)]

/-- Proleptic Gregorian leap-year rule, as used by the platform Date. -/
def isLeapYear (y : Nat) : Bool :=
  (y % 4 == 0 && y % 100 != 0) || y % 400 == 0

/-- Days in a month of the proleptic Gregorian calendar. -/
def daysInMonth (y m : Nat) : Nat :=
  if m = 2 then (if isLeapYear y then 29 else 28)
  else if m = 4 ∨ m = 6 ∨ m = 9 ∨ m = 11 then 30
  else 31

/-- getFullYear of new Date(y, m-1, d), for the 1 ≤ d ≤ 31 range guaranteed
by validateDateComponents: a day beyond the month's length rolls into the
following month (and December into the next year). -/
def jsDateNormYear (y m d : Nat) : Nat :=
  if d ≤ daysInMonth y m then y else if m = 12 then y + 1 else y

/-- getMonth (1-based here) of new Date(y, m-1, d), for 1 ≤ d ≤ 31. -/
def jsDateNormMonth (y m d : Nat) : Nat :=
  if d ≤ daysInMonth y m then m else if m = 12 then 1 else m + 1

/-- getDate of new Date(y, m-1, d), for 1 ≤ d ≤ 31. -/
def jsDateNormDay (y m d : Nat) : Nat :=
  if d ≤ daysInMonth y m then d else d - daysInMonth y m

/-- Model of validateActualDate: round-trip the components through the
platform calendar (new Date(y, m-1, d) and its accessors) and require them
unchanged, rejecting e.g. day 31 in a 30-day month. -/
def validateActualDate (yearNum monthNum dayNum : Nat) : Except String Unit :=
  if jsDateNormYear yearNum monthNum dayNum = yearNum
      ∧ jsDateNormMonth yearNum monthNum dayNum = monthNum
      ∧ jsDateNormDay yearNum monthNum dayNum = dayNum then .ok ()
  else .error "Invalid date"

/-- Model of validateDateComponents: year 1900-3000, month 1-12, day 1-31. -/
def validateDateComponents (yearNum monthNum dayNum : Nat) : Except String Unit :=
  if yearNum < 1900 ∨ 3000 < yearNum then .error "Invalid year"
  else if monthNum < 1 ∨ 12 < monthNum then .error "Invalid month"
  else if dayNum < 1 ∨ 31 < dayNum then .error "Invalid day"
  else .ok ()

/-- Two-digit zero-padded rendering of a date component. -/
def padTwoNat (n : Nat) : JStr := padTwo (n : Int)

/-- Model of buildDateString: validate the components and the calendar,
then render the canonical YYYY-MM-DD value. -/
def buildDateString (yearNum monthNum dayNum : Nat) : Except String JStr :=
  match validateDateComponents yearNum monthNum dayNum with
  | .error e => .error e
  | .ok _ =>
    match validateActualDate yearNum monthNum dayNum with
    | .error e => .error e
    | .ok _ =>
      .ok (Nat.toDigits 10 yearNum ++ ['-'] ++ padTwoNat monthNum
            ++ ['-'] ++ padTwoNat dayNum)

/-- Model of parseDateString after its regex has split the token into the
month word and the numeric day and year: resolve the month through the
(lower-cased) name table and build the canonical date. -/
def parseDateComponents (monthStr : JStr) (day year : Nat) : Except String JStr :=
  match getMonthNames.lookup (jsToLower monthStr) with
  | none => .error "Invalid month"
  | some month => buildDateString year month day

/-! The categorizer of the work-log service. -/

/-- One parsed entry as the categorizer reads it. -/
structure AnalysisEntry where
  project : JStr
  subject : JStr
  work_package_id : Option Nat
  is_scrum : Bool
deriving DecidableEq

/-- A duplicate record pushed by handleDuplicateEntry: the entry plus the
matched work package's id and subject. -/
structure DupEntry where
  entry : AnalysisEntry
  existing_work_package_id : Nat
  existing_subject : JStr
deriving DecidableEq

/-- The four buckets of performWorkPackageAnalysis. -/
structure AnalysisResult where
  scrum : List AnalysisEntry
  existing : List AnalysisEntry
  duplicates : List DupEntry
  new : List AnalysisEntry
deriving DecidableEq

/-- Model of categorizeEntry / checkForDuplicatesOrNew of the work-log
service.  The awaited remote duplicate lookup is abstracted as a function
that may reject (network failure); a missing (or falsy) project mapping
throws out of the categorizer; a failed lookup falls open to the new
bucket with the error logged. -/
def categorizeEntry (lookup : Nat → JStr → Except String (Option WorkPackage))
    (projectMapping : JStr → Option Nat) (e : AnalysisEntry) (acc : AnalysisResult) :
    Except String AnalysisResult :=
  if e.is_scrum && (truthyId e.work_package_id).isSome then
    .ok { acc with scrum := acc.scrum ++ [e] }
  else if (truthyId e.work_package_id).isSome then
    .ok { acc with existing := acc.existing ++ [e] }
  else
    match truthyId (projectMapping e.project) with
    | none => .error "Project mapping not found"
    | some projectId =>
      match lookup projectId e.subject with
      | .ok (some existingWp) =>
        .ok { acc with duplicates := acc.duplicates
            ++ [{ entry := e, existing_work_package_id := existingWp.id,
                  existing_subject := existingWp.subject }] }
      | .ok none => .ok { acc with new := acc.new ++ [e] }
      | .error _ => .ok { acc with new := acc.new ++ [e] }

/-! The processAllEntries loop of the work-log service. -/

/-- One record pushed into results by processAndTrackEntry. -/
structure SvcOutcome (α : Type) where
  success : Bool
  entry : α
  resultType : Option String
  error : Option String
deriving DecidableEq

/-- The running counters of processAllEntries. -/
structure SvcStats where
  createdCount : Nat
  updatedCount : Nat
  errorCount : Nat
deriving DecidableEq

/-- Model of updateStats: a successful result of type "new" counts as
created, every other successful result as updated. -/
def updateStats (resultType : String) (stats : SvcStats) : SvcStats :=
  if resultType = "new" then { stats with createdCount := stats.createdCount + 1 }
  else { stats with updatedCount := stats.updatedCount + 1 }

/-- Model of processAndTrackEntry: run processEntry — abstracted as the
step function acting on the remote state σ and returning the result type
string — record success or the caught error, and update the counters. -/
def processAndTrackEntry {σ α : Type} (step : σ → α → Except String (String × σ))
    (st : σ) (e : α) (stats : SvcStats) : σ × SvcOutcome α × SvcStats :=
  match step st e with
  | .ok r =>
    (r.2, { success := true, entry := e, resultType := some r.1, error := none },
     updateStats r.1 stats)
  | .error msg =>
    (st, { success := false, entry := e, resultType := none, error := some msg },
     { stats with errorCount := stats.errorCount + 1 })

/-- The strictly sequential loop of processAllEntries. -/
def processAllEntriesGo {σ α : Type} (step : σ → α → Except String (String × σ)) :
    σ → List α → SvcStats → σ × List (SvcOutcome α) × SvcStats
  | st, [], stats => (st, [], stats)
  | st, e :: rest, stats =>
    let r := processAndTrackEntry step st e stats
    let rr := processAllEntriesGo step r.1 rest r.2.2
    (rr.1, r.2.1 :: rr.2.1, rr.2.2)

/-- The final report of buildProcessingResult. -/
structure ProcessingResult (α : Type) where
  results : List (SvcOutcome α)
  createdCount : Nat
  updatedCount : Nat
  successCount : Nat
  errorCount : Nat
  totalEntries : Nat
deriving DecidableEq

def buildProcessingResult {α : Type} (results : List (SvcOutcome α)) (stats : SvcStats)
    (totalEntries : Nat) : ProcessingResult α :=
  { results := results, createdCount := stats.createdCount,
    updatedCount := stats.updatedCount,
    successCount := stats.createdCount + stats.updatedCount,
    errorCount := stats.errorCount, totalEntries := totalEntries }

/-- Model of processAllEntries: process the work-log entries strictly in
order starting from zero counters and build the final report. -/
def processAllEntries {σ α : Type} (step : σ → α → Except String (String × σ))
    (s0 : σ) (entries : List α) : σ × ProcessingResult α :=
  let r := processAllEntriesGo step s0 entries ⟨0, 0, 0⟩
  (r.1, buildProcessingResult r.2.1 r.2.2 entries.length)

/-- The state the loop is in after one entry. -/
def stepState {σ α : Type} (step : σ → α → Except String (String × σ)) (st : σ) (e : α) : σ :=
  match step st e with
  | .ok r => r.2
  | .error _ => st

/-- The state the loop is in before each entry, in order. -/
def statesAlong {σ α : Type} (step : σ → α → Except String (String × σ)) :
    σ → List α → List σ
  | _, [] => []
  | st, e :: rest => st :: statesAlong step (stepState step st e) rest

/-- The outcome the loop records for an entry processed from state st. -/
def mkOutcome {σ α : Type} (step : σ → α → Except String (String × σ)) (st : σ) (e : α) :
    SvcOutcome α :=
  match step st e with
  | .ok r => { success := true, entry := e, resultType := some r.1, error := none }
  | .error msg => { success := false, entry := e, resultType := none, error := some msg }

/-- Rat.floor agrees with the Mathlib floor on ℚ. -/
theorem ratFloor_eq_intFloor (q : ℚ) : Rat.floor q = ⌊q⌋ := rfl

/-- jsRound restated through the Mathlib floor. -/
theorem jsRound_eq (q : ℚ) : jsRound q = ⌊q + 1/2⌋ := rfl

theorem findMatchingWorkPackage_eq (wps : List WorkPackage) (n : JStr) :
    findMatchingWorkPackage wps n = wps.find? (subjectMatches n) := rfl

/-- With enough fuel, the page scan returns exactly the first matching
element of the whole list. -/
theorem scanPagesGo_fst (n : JStr) :
    ∀ (fuel : Nat) (l : List WorkPackage), l.length < fuel →
      (scanPagesGo n fuel l).1 = l.find? (subjectMatches n) := by
  intro fuel
  induction fuel with
  | zero => intro l hl; omega
  | succ fuel ih =>
    intro l hl
    rw [scanPagesGo]
    by_cases h0 : (l.take 100).length = 0
    · have hl0 : l.length = 0 := by
        rw [List.length_take] at h0; omega
      have hnil : l = [] := List.length_eq_zero.mp hl0
      subst hnil
      simp
    · simp only [if_neg h0]
      rw [findMatchingWorkPackage_eq]
      cases hm : (l.take 100).find? (subjectMatches n) with
      | some wp =>
        have hfind : l.find? (subjectMatches n) = some wp := by
          conv_lhs => rw [← List.take_append_drop 100 l]
          rw [List.find?_append, hm]
          rfl
        rw [hfind]
      | none =>
        by_cases hfull : shouldFetchNextPage 100 (l.take 100).length = true
        · simp only [if_pos hfull]
          have hge : 100 ≤ l.length := by
            have h1 : ¬((l.take 100).length < 100) := by
              simpa [shouldFetchNextPage] using hfull
            rw [List.length_take] at h1
            omega
          have hrec : (scanPagesGo n fuel (l.drop 100)).1
              = (l.drop 100).find? (subjectMatches n) := by
            apply ih
            rw [List.length_drop]
            omega
          show (scanPagesGo n fuel (l.drop 100)).1 = l.find? (subjectMatches n)
          rw [hrec]
          conv_rhs => rw [← List.take_append_drop 100 l]
          rw [List.find?_append, hm]
          rfl
        · simp only [if_neg hfull]
          have hlt : l.length < 100 := by
            have h1 : (l.take 100).length < 100 := by
              by_contra hc
              exact hfull (by simpa [shouldFetchNextPage] using hc)
            rw [List.length_take] at h1; omega
          have hall : l.take 100 = l := List.take_of_length_le (by omega)
          rw [hall] at hm
          exact hm.symm

/-- With enough fuel, the page scan issues at most ⌈count / 100⌉ + 1 fetches. -/
theorem scanPagesGo_count (n : JStr) :
    ∀ (fuel : Nat) (l : List WorkPackage), l.length < fuel →
      (scanPagesGo n fuel l).2 ≤ (l.length + 99) / 100 + 1 := by
  intro fuel
  induction fuel with
  | zero => intro l hl; omega
  | succ fuel ih =>
    intro l hl
    rw [scanPagesGo]
    by_cases h0 : (l.take 100).length = 0
    · simp only [if_pos h0]; omega
    · simp only [if_neg h0]
      cases hm : findMatchingWorkPackage (l.take 100) n with
      | some wp =>
        show (1 : Nat) ≤ (l.length + 99) / 100 + 1
        omega
      | none =>
        by_cases hfull : shouldFetchNextPage 100 (l.take 100).length = true
        · simp only [if_pos hfull]
          have hge : 100 ≤ l.length := by
            have h1 : ¬((l.take 100).length < 100) := by
              simpa [shouldFetchNextPage] using hfull
            rw [List.length_take] at h1
            omega
          have hrec := ih (l.drop 100) (by rw [List.length_drop]; omega)
          rw [List.length_drop] at hrec
          show (scanPagesGo n fuel (l.drop 100)).2 + 1 ≤ (l.length + 99) / 100 + 1
          omega
        · simp only [if_neg hfull]
          omega

theorem scanPages_fst (n : JStr) (l : List WorkPackage) :
    (scanPages n l).1 = l.find? (subjectMatches n) :=
  scanPagesGo_fst n (l.length + 1) l (by omega)

theorem scanPages_count (n : JStr) (l : List WorkPackage) :
    (scanPages n l).2 ≤ (l.length + 99) / 100 + 1 :=
  scanPagesGo_count n (l.length + 1) l (by omega)

/-- The lookup, characterized as a first-match search over the project's
work packages. -/
theorem checkExisting_eq_find (s : RemoteState) (projectId : Nat) (subject : JStr) :
    checkExistingWorkPackageBySubject s projectId subject =
      (projectWorkPackages s projectId).find? (subjectMatches (normalizeSubject subject)) :=
  scanPages_fst _ _

theorem subjectMatches_iff (n : JStr) (wp : WorkPackage) :
    subjectMatches n wp = true ↔ normalizeSubject wp.subject = n := by
  simp [subjectMatches]

/-- C1: The duplicate lookup (checkExistingWorkPackageBySubject backed by
findMatchingWorkPackage) returns a work package iff some remote work
package's trimmed, lower-cased subject equals the trimmed, lower-cased
query subject; every returned work package has exactly that normalized
subject, so a merely strict-substring relationship (in either direction)
is never returned as a match. -/
theorem duplicate_lookup_exact_match (s : RemoteState) (projectId : Nat) (subject : JStr) :
    (∀ wp, checkExistingWorkPackageBySubject s projectId subject = some wp →
        normalizeSubject wp.subject = normalizeSubject subject) ∧
    ((checkExistingWorkPackageBySubject s projectId subject).isSome ↔
        ∃ wp ∈ projectWorkPackages s projectId,
          normalizeSubject wp.subject = normalizeSubject subject) ∧
    (∀ (wps : List WorkPackage) (wp : WorkPackage),
        findMatchingWorkPackage wps (normalizeSubject subject) = some wp →
          normalizeSubject wp.subject = normalizeSubject subject) ∧
    (∀ wps : List WorkPackage,
        (findMatchingWorkPackage wps (normalizeSubject subject)).isSome ↔
          ∃ wp ∈ wps, normalizeSubject wp.subject = normalizeSubject subject) ∧
    (∀ wp, checkExistingWorkPackageBySubject s projectId subject = some wp →
        ¬(normalizeSubject wp.subject <:+: normalizeSubject subject ∧
            normalizeSubject wp.subject ≠ normalizeSubject subject) ∧
        ¬(normalizeSubject subject <:+: normalizeSubject wp.subject ∧
            normalizeSubject subject ≠ normalizeSubject wp.subject)) := by
  have key : ∀ (wps : List WorkPackage) (wp : WorkPackage),
      wps.find? (subjectMatches (normalizeSubject subject)) = some wp →
        normalizeSubject wp.subject = normalizeSubject subject := by
    intro wps wp h
    exact (subjectMatches_iff _ _).mp (List.find?_some h)
  refine ⟨?_, ?_, ?_, ?_, ?_⟩
  · intro wp h
    rw [checkExisting_eq_find] at h
    exact key _ _ h
  · rw [checkExisting_eq_find, List.find?_isSome]
    simp [subjectMatches]
  · intro wps wp h
    rw [findMatchingWorkPackage_eq] at h
    exact key _ _ h
  · intro wps
    rw [findMatchingWorkPackage_eq, List.find?_isSome]
    simp [subjectMatches]
  · intro wp h
    rw [checkExisting_eq_find] at h
    have he := key _ _ h
    exact ⟨fun hc => hc.2 he, fun hc => hc.2 he.symm⟩

theorem duplicate_lookup_exact_match_witness :
    normalizeSubject (WorkPackage.mk 7 1 "fix login bug".data).subject
      = normalizeSubject "Fix Login Bug ".data :=
  (duplicate_lookup_exact_match
      ⟨[⟨7, 1, "fix login bug".data⟩], [], 8, 1⟩ 1 "Fix Login Bug ".data).1
    ⟨7, 1, "fix login bug".data⟩ (by decide)

/-- C5: For every remote work-package count, the paginated duplicate lookup
terminates (it is a total function) issuing at most ⌈count/100⌉ + 1 page
fetches, and it returns after a single fetch when the first page already
contains an exact match. -/
theorem pagination_fetch_bound (s : RemoteState) (projectId : Nat) (subject : JStr) :
    lookupFetchCount s projectId subject
        ≤ ((projectWorkPackages s projectId).length + 99) / 100 + 1 ∧
    (∀ wp, findMatchingWorkPackage ((projectWorkPackages s projectId).take 100)
          (normalizeSubject subject) = some wp →
        lookupFetchCount s projectId subject = 1) := by
  constructor
  · exact scanPages_count _ _
  · intro wp hm
    unfold lookupFetchCount scanPages
    rw [scanPagesGo]
    have h0 : ¬(((projectWorkPackages s projectId).take 100).length = 0) := by
      intro h
      rw [List.length_eq_zero.mp h] at hm
      simp [findMatchingWorkPackage] at hm
    rw [if_neg h0, hm]

theorem pagination_fetch_bound_witness :
    lookupFetchCount ⟨[⟨7, 1, "fix login bug".data⟩], [], 8, 1⟩ 1 "Fix Login Bug ".data = 1 :=
  (pagination_fetch_bound ⟨[⟨7, 1, "fix login bug".data⟩], [], 8, 1⟩ 1 "Fix Login Bug ".data).2
    ⟨7, 1, "fix login bug".data⟩ (by decide)

/-- C10: createWorkPackage performs the duplicate-subject lookup first; when
an exact normalized-subject match already exists in the project it returns
that existing work package, leaves the remote state unchanged (no creation
request), and hence never creates a work package whose normalized subject
already exists in the project at lookup time. -/
theorem createWorkPackage_no_duplicate_subject (s : RemoteState) (projectId : Nat) (subject : JStr)
    (h : ∃ wp ∈ projectWorkPackages s projectId,
        normalizeSubject wp.subject = normalizeSubject subject) :
    (createWorkPackage s projectId subject).2 = s ∧
    checkExistingWorkPackageBySubject s projectId subject
        = some (createWorkPackage s projectId subject).1 ∧
    normalizeSubject (createWorkPackage s projectId subject).1.subject
        = normalizeSubject subject ∧
    (createWorkPackage s projectId subject).1 ∈ s.workPackages := by
  have hsome : (checkExistingWorkPackageBySubject s projectId subject).isSome := by
    rw [checkExisting_eq_find, List.find?_isSome]
    obtain ⟨wp, hmem, heq⟩ := h
    exact ⟨wp, hmem, (subjectMatches_iff _ _).mpr heq⟩
  obtain ⟨wp0, hwp0⟩ := Option.isSome_iff_exists.mp hsome
  have hnorm : normalizeSubject wp0.subject = normalizeSubject subject := by
    rw [checkExisting_eq_find] at hwp0
    exact (subjectMatches_iff _ _).mp (List.find?_some hwp0)
  have hmem : wp0 ∈ s.workPackages := by
    rw [checkExisting_eq_find] at hwp0
    exact List.mem_of_mem_filter (List.mem_of_find?_eq_some hwp0)
  unfold createWorkPackage
  rw [hwp0]
  exact ⟨rfl, rfl, hnorm, hmem⟩

theorem createWorkPackage_no_duplicate_subject_witness :
    (createWorkPackage ⟨[⟨7, 1, "fix login bug".data⟩], [], 8, 1⟩ 1 "Fix Login Bug ".data).2
        = ⟨[⟨7, 1, "fix login bug".data⟩], [], 8, 1⟩ :=
  (createWorkPackage_no_duplicate_subject
      ⟨[⟨7, 1, "fix login bug".data⟩], [], 8, 1⟩ 1 "Fix Login Bug ".data
      ⟨⟨7, 1, "fix login bug".data⟩, by decide, by decide⟩).1

/-! Lemmas for the idempotence of the pipeline. -/

theorem find?_of_prefix {α : Type} (p : α → Bool) {l₁ l₂ : List α} (h : l₁ <+: l₂)
    {x : α} (hf : l₁.find? p = some x) : l₂.find? p = some x := by
  obtain ⟨t, rfl⟩ := h
  rw [List.find?_append, hf]
  rfl

theorem StateExtends.rfl (s : RemoteState) : StateExtends s s :=
  ⟨List.prefix_refl _, List.prefix_refl _⟩

theorem StateExtends.trans {s t u : RemoteState} (h1 : StateExtends s t)
    (h2 : StateExtends t u) : StateExtends s u :=
  ⟨h1.1.trans h2.1, h1.2.trans h2.2⟩

theorem processWorkLogEntry_eq (s : RemoteState) (e : WorkLogEntry) (d : JStr) :
    processWorkLogEntry s e d =
      match addTimeEntry (ensureWorkPackageExists s e).2.1 (ensureWorkPackageExists s e).1 e d with
      | .ok res => (res.1, { status := res.2, error := none, succeeded := true })
      | .error msg =>
          ((ensureWorkPackageExists s e).2.1,
           { status := "error", error := some msg, succeeded := false }) := rfl

theorem processWorkLogEntries_nil (s : RemoteState) (d : JStr) :
    processWorkLogEntries s [] d = (s, []) := rfl

theorem processWorkLogEntries_cons (s : RemoteState) (e : WorkLogEntry)
    (rest : List WorkLogEntry) (d : JStr) :
    processWorkLogEntries s (e :: rest) d =
      ((processWorkLogEntries (processWorkLogEntry s e d).1 rest d).1,
       (processWorkLogEntry s e d).2
         :: (processWorkLogEntries (processWorkLogEntry s e d).1 rest d).2) := rfl

theorem createWorkPackage_state (s : RemoteState) (pid : Nat) (subject : JStr) :
    StateExtends s (createWorkPackage s pid subject).2 ∧
    (createWorkPackage s pid subject).2.timeEntries = s.timeEntries := by
  unfold createWorkPackage
  cases h : checkExistingWorkPackageBySubject s pid subject with
  | some wp => exact ⟨StateExtends.rfl s, rfl⟩
  | none => exact ⟨⟨List.prefix_append _ _, List.prefix_refl _⟩, rfl⟩

theorem ensureWorkPackageExists_state (s : RemoteState) (e : WorkLogEntry) :
    StateExtends s (ensureWorkPackageExists s e).2.1 ∧
    (ensureWorkPackageExists s e).2.1.timeEntries = s.timeEntries := by
  unfold ensureWorkPackageExists
  cases htr : truthyId e.work_package_id with
  | some wpid => exact ⟨StateExtends.rfl s, rfl⟩
  | none =>
    cases h : checkExistingWorkPackageBySubject s e.project_id e.subject with
    | some wp => exact ⟨StateExtends.rfl s, rfl⟩
    | none =>
      exact ⟨(createWorkPackage_state s e.project_id e.subject).1,
             (createWorkPackage_state s e.project_id e.subject).2⟩

theorem createTimeEntry_ok_state {s : RemoteState} {w : Nat} {d : JStr} {st : Option JStr}
    {hours : ℚ} {c : JStr} {r : TimeEntry × RemoteState}
    (h : createTimeEntry s w d st hours c = .ok r) :
    r.2.workPackages = s.workPackages ∧
    r.2.timeEntries = s.timeEntries ++ [r.1] ∧
    r.1.workPackageId = w ∧ parseAndFormatDate d = .ok r.1.spentOn := by
  unfold createTimeEntry at h
  cases hp : parseAndFormatDate d with
  | error e =>
    simp only [hp] at h
    exact Except.noConfusion h
  | ok fd =>
    simp only [hp] at h
    cases hv : validateHours hours with
    | error e =>
      simp only [hv] at h
      exact Except.noConfusion h
    | ok u =>
      simp only [hv] at h
      cases h
      exact ⟨rfl, rfl, rfl, rfl⟩

theorem createTimeEntry_error_indep {s : RemoteState} (t : RemoteState) {w : Nat} (w' : Nat)
    {d : JStr} {st : Option JStr} {hours : ℚ} {c : JStr} {msg : String}
    (h : createTimeEntry s w d st hours c = .error msg) :
    createTimeEntry t w' d st hours c = .error msg := by
  unfold createTimeEntry at h ⊢
  cases hp : parseAndFormatDate d with
  | error e =>
    simp only [hp] at h ⊢
    exact h
  | ok fd =>
    simp only [hp] at h ⊢
    cases hv : validateHours hours with
    | error e =>
      simp only [hv] at h ⊢
      exact h
    | ok u =>
      simp only [hv] at h
      exact Except.noConfusion h

theorem addTimeEntry_skip {s : RemoteState} {w : Nat} (e : WorkLogEntry) {d : JStr}
    (h : 0 < (checkExistingTimeEntries s w d).length) :
    addTimeEntry s w e d = .ok (s, "skipped_duplicate_time_entry") := by
  unfold addTimeEntry
  simp only [if_pos h]

theorem addTimeEntry_ok_state {s : RemoteState} {w : Nat} {e : WorkLogEntry} {d : JStr}
    {res : RemoteState × String} (h : addTimeEntry s w e d = .ok res) :
    res.1.workPackages = s.workPackages ∧ s.timeEntries <+: res.1.timeEntries := by
  unfold addTimeEntry at h
  by_cases hc : 0 < (checkExistingTimeEntries s w d).length
  · simp only [if_pos hc] at h
    cases h
    exact ⟨rfl, List.prefix_refl _⟩
  · simp only [if_neg hc] at h
    cases hct : createTimeEntry s w d e.start_time e.hours e.comment with
    | error msg =>
      simp only [hct] at h
      exact Except.noConfusion h
    | ok r =>
      simp only [hct] at h
      cases h
      obtain ⟨hw, ht, _, _⟩ := createTimeEntry_ok_state hct
      exact ⟨hw, by rw [ht]; exact List.prefix_append _ _⟩

theorem processWorkLogEntry_extends (s : RemoteState) (e : WorkLogEntry) (d : JStr) :
    StateExtends s (processWorkLogEntry s e d).1 ∧
    (processWorkLogEntry s e d).1.workPackages
      = (ensureWorkPackageExists s e).2.1.workPackages := by
  obtain ⟨hext, hte⟩ := ensureWorkPackageExists_state s e
  rw [processWorkLogEntry_eq]
  cases ha : addTimeEntry (ensureWorkPackageExists s e).2.1 (ensureWorkPackageExists s e).1 e d with
  | error msg => exact ⟨hext, rfl⟩
  | ok res =>
    obtain ⟨hw, hp⟩ := addTimeEntry_ok_state ha
    refine ⟨hext.trans ⟨?_, hp⟩, hw⟩
    rw [hw]

theorem processWorkLogEntries_extends (entries : List WorkLogEntry) :
    ∀ (s : RemoteState) (d : JStr), StateExtends s (processWorkLogEntries s entries d).1 := by
  induction entries with
  | nil => intro s d; exact StateExtends.rfl s
  | cons e rest ih =>
    intro s d
    rw [processWorkLogEntries_cons]
    exact ((processWorkLogEntry_extends s e d).1).trans (ih _ d)

theorem processWorkLogEntries_post (entries : List WorkLogEntry) :
    ∀ (s : RemoteState) (d : JStr) (e : WorkLogEntry), e ∈ entries →
      ∃ sPre : RemoteState,
        StateExtends (processWorkLogEntry sPre e d).1 (processWorkLogEntries s entries d).1 := by
  induction entries with
  | nil => intro s d e he; cases he
  | cons e0 rest ih =>
    intro s d e he
    rcases List.mem_cons.mp he with rfl | hmem
    · refine ⟨s, ?_⟩
      rw [processWorkLogEntries_cons]
      exact processWorkLogEntries_extends rest _ d
    · obtain ⟨sPre, hext⟩ := ih (processWorkLogEntry s e0 d).1 d e hmem
      refine ⟨sPre, ?_⟩
      rw [processWorkLogEntries_cons]
      exact hext

/-- Resolution stability: once an entry has been processed, any later state
that extends the reached work-package list resolves the entry to the same
work-package id without creating anything. -/
theorem ensure_stable (s : RemoteState) (e : WorkLogEntry) (t : RemoteState)
    (h : (ensureWorkPackageExists s e).2.1.workPackages <+: t.workPackages) :
    (ensureWorkPackageExists t e).1 = (ensureWorkPackageExists s e).1 ∧
    (ensureWorkPackageExists t e).2.1 = t := by
  unfold ensureWorkPackageExists at h ⊢
  cases htr : truthyId e.work_package_id with
  | some wpid => simp only [htr]; exact ⟨by simp, by simp⟩
  | none =>
    simp only [htr] at h ⊢
    cases hc : checkExistingWorkPackageBySubject s e.project_id e.subject with
    | some wp =>
      simp only [hc] at h
      have hfind : checkExistingWorkPackageBySubject t e.project_id e.subject = some wp := by
        rw [checkExisting_eq_find]
        rw [checkExisting_eq_find] at hc
        exact find?_of_prefix _ (h.filter _) hc
      simp only [hfind]
      exact ⟨by simp, by simp⟩
    | none =>
      simp only [hc] at h ⊢
      have hcw : createWorkPackage s e.project_id e.subject =
          (⟨s.nextWpId, e.project_id, e.subject⟩,
           { s with workPackages := s.workPackages ++ [⟨s.nextWpId, e.project_id, e.subject⟩],
                    nextWpId := s.nextWpId + 1 }) := by
        unfold createWorkPackage
        simp only [hc]
      rw [hcw] at h ⊢
      obtain ⟨rest, hrest⟩ := h
      have hnone : (projectWorkPackages s e.project_id).find?
          (subjectMatches (normalizeSubject e.subject)) = none := by
        rw [checkExisting_eq_find] at hc
        exact hc
      have hfind : checkExistingWorkPackageBySubject t e.project_id e.subject =
          some ⟨s.nextWpId, e.project_id, e.subject⟩ := by
        rw [checkExisting_eq_find]
        unfold projectWorkPackages
        rw [← hrest, List.filter_append, List.filter_append, List.find?_append,
            List.find?_append]
        unfold projectWorkPackages at hnone
        rw [hnone]
        have h2 : (([⟨s.nextWpId, e.project_id, e.subject⟩] : List WorkPackage).filter
            (fun wp => wp.projectId == e.project_id)) = [⟨s.nextWpId, e.project_id, e.subject⟩] := by
          simp
        rw [h2]
        have h3 : (([⟨s.nextWpId, e.project_id, e.subject⟩] : List WorkPackage).find?
            (subjectMatches (normalizeSubject e.subject)))
              = some ⟨s.nextWpId, e.project_id, e.subject⟩ := by
          simp [subjectMatches]
        rw [h3]
        rfl
      simp only [hfind]
      exact ⟨by simp, by simp⟩

theorem checkExistingTimeEntries_pos {s : RemoteState} {w : Nat} {d : JStr} {te : TimeEntry}
    (hmem : te ∈ s.timeEntries) (hsp : te.spentOn = d) (hw : te.workPackageId = w) :
    0 < (checkExistingTimeEntries s w d).length := by
  have hmem2 : te ∈ s.timeEntries.filter
      (fun te => te.spentOn == formatDateForComparison d && te.workPackageId == w) := by
    refine List.mem_filter.mpr ⟨hmem, ?_⟩
    simp [formatDateForComparison, hsp, hw]
  exact List.length_pos.mpr (List.ne_nil_of_mem hmem2)

/-- Re-processing stability: once an entry has been processed, processing it
again from any state extending the reached one leaves the remote unchanged
(the duplicate checks make the second pass a no-op). -/
theorem processWorkLogEntry_stable (s : RemoteState) (e : WorkLogEntry) (d : JStr)
    (hdate : parseAndFormatDate d = Except.ok d) (t : RemoteState)
    (hwp : (processWorkLogEntry s e d).1.workPackages <+: t.workPackages)
    (hte : (processWorkLogEntry s e d).1.timeEntries <+: t.timeEntries) :
    (processWorkLogEntry t e d).1 = t := by
  have hpw := (processWorkLogEntry_extends s e d).2
  have hs1wp : (ensureWorkPackageExists s e).2.1.workPackages <+: t.workPackages := by
    rw [← hpw]; exact hwp
  obtain ⟨hid, hst⟩ := ensure_stable s e t hs1wp
  rw [processWorkLogEntry_eq s e d] at hte
  rw [processWorkLogEntry_eq t e d, hst, hid]
  cases ha : addTimeEntry (ensureWorkPackageExists s e).2.1 (ensureWorkPackageExists s e).1 e d with
  | ok res =>
    simp only [ha] at hte
    have hmem : ∃ te ∈ t.timeEntries,
        te.spentOn = d ∧ te.workPackageId = (ensureWorkPackageExists s e).1 := by
      unfold addTimeEntry at ha
      by_cases hc : 0 < (checkExistingTimeEntries (ensureWorkPackageExists s e).2.1
          (ensureWorkPackageExists s e).1 d).length
      · obtain ⟨te, hte2⟩ := List.exists_mem_of_ne_nil _
          (List.ne_nil_of_length_pos hc)
        have := List.mem_filter.mp hte2
        obtain ⟨hmemf, hpred⟩ := this
        simp only [Bool.and_eq_true, beq_iff_eq] at hpred
        refine ⟨te, ?_, hpred.1, hpred.2⟩
        rw [if_pos hc] at ha
        cases ha
        exact hte.subset hmemf
      · rw [if_neg hc] at ha
        cases hct : createTimeEntry (ensureWorkPackageExists s e).2.1
            (ensureWorkPackageExists s e).1 d e.start_time e.hours e.comment with
        | error msg =>
          simp only [hct] at ha
          exact Except.noConfusion ha
        | ok r =>
          simp only [hct] at ha
          cases ha
          obtain ⟨hw2, ht2, hwid, hsp⟩ := createTimeEntry_ok_state hct
          rw [hdate] at hsp
          injection hsp with hsp
          refine ⟨r.1, ?_, hsp.symm, hwid⟩
          apply hte.subset
          rw [ht2]
          simp
    obtain ⟨te, htmem, hsp, hwid⟩ := hmem
    have hpos := checkExistingTimeEntries_pos htmem hsp hwid
    rw [addTimeEntry_skip e hpos]
  | error msg =>
    unfold addTimeEntry at ha
    by_cases hc : 0 < (checkExistingTimeEntries (ensureWorkPackageExists s e).2.1
        (ensureWorkPackageExists s e).1 d).length
    · rw [if_pos hc] at ha
      exact Except.noConfusion ha
    · rw [if_neg hc] at ha
      cases hct : createTimeEntry (ensureWorkPackageExists s e).2.1
          (ensureWorkPackageExists s e).1 d e.start_time e.hours e.comment with
      | ok r =>
        simp only [hct] at ha
        exact Except.noConfusion ha
      | error m2 =>
        by_cases hct2 : 0 < (checkExistingTimeEntries t (ensureWorkPackageExists s e).1 d).length
        · rw [addTimeEntry_skip e hct2]
        · have herr : createTimeEntry t (ensureWorkPackageExists s e).1 d
              e.start_time e.hours e.comment = .error m2 :=
            createTimeEntry_error_indep t _ hct
          unfold addTimeEntry
          rw [if_neg hct2]
          simp only [herr]

theorem processWorkLogEntries_stable (entries : List WorkLogEntry) :
    ∀ (t : RemoteState) (d : JStr),
      (∀ e ∈ entries, (processWorkLogEntry t e d).1 = t) →
      (processWorkLogEntries t entries d).1 = t := by
  induction entries with
  | nil => intro t d h; rfl
  | cons e rest ih =>
    intro t d h
    rw [processWorkLogEntries_cons]
    have h0 : (processWorkLogEntry t e d).1 = t := h e (by simp)
    rw [h0]
    exact ih t d (fun e' he' => h e' (by simp [he']))

/-- C2: When a time entry already exists for the exact (work package, date)
pair, the pipeline records outcome skipped_duplicate_time_entry and creates
no time entry; consequently a second run of the whole pipeline (same
entries, same canonical date) against the state reached by the first run
leaves the remote state unchanged, creating zero additional time entries. -/
theorem pipeline_skip_and_idempotent
    (s0 : RemoteState) (entries : List WorkLogEntry) (date : JStr)
    (s : RemoteState) (e : WorkLogEntry)
    (hdate : parseAndFormatDate date = Except.ok date)
    (hex : 0 < (checkExistingTimeEntries (ensureWorkPackageExists s e).2.1
        (ensureWorkPackageExists s e).1 date).length) :
    (processWorkLogEntry s e date).2.status = "skipped_duplicate_time_entry" ∧
    (processWorkLogEntry s e date).1.timeEntries = s.timeEntries ∧
    (processWorkLogEntries (processWorkLogEntries s0 entries date).1 entries date).1
      = (processWorkLogEntries s0 entries date).1 := by
  refine ⟨?_, ?_, ?_⟩
  · rw [processWorkLogEntry_eq, addTimeEntry_skip e hex]
  · rw [processWorkLogEntry_eq, addTimeEntry_skip e hex]
    exact (ensureWorkPackageExists_state s e).2
  · apply processWorkLogEntries_stable
    intro e' he'
    obtain ⟨sPre, hext⟩ := processWorkLogEntries_post entries s0 date e' he'
    exact processWorkLogEntry_stable sPre e' date hdate _ hext.1 hext.2

theorem pipeline_skip_and_idempotent_witness :
    (processWorkLogEntry
        ⟨[], [⟨1, 5, "2025-10-06".data, 2, []⟩], 1, 2⟩
        ⟨"p".data, 1, "Task A".data, some 5, 2, "Development".data, none, []⟩
        "2025-10-06".data).2.status = "skipped_duplicate_time_entry" :=
  (pipeline_skip_and_idempotent ⟨[], [], 1, 1⟩
    [⟨"p".data, 1, "Task A".data, some 5, 2, "Development".data, none, []⟩]
    "2025-10-06".data
    ⟨[], [⟨1, 5, "2025-10-06".data, 2, []⟩], 1, 2⟩
    ⟨"p".data, 1, "Task A".data, some 5, 2, "Development".data, none, []⟩
    (by rfl) (by decide)).1

theorem chainGo_eq_append :
    ∀ (rest pr : List ChainEntry) (f : Bool),
      chainGo rest pr f = pr.reverse ++ chainTail rest pr f := by
  intro rest
  induction rest with
  | nil => intro pr f; simp [chainGo, chainTail]
  | cons e rest ih =>
    intro pr f
    by_cases he : e.is_scrum
    · simp only [chainGo, chainTail, if_pos he]
      rw [ih]
      simp [List.reverse_cons, List.append_assoc]
    · simp only [chainGo, chainTail, if_neg he]
      rw [ih]
      simp [List.reverse_cons, List.append_assoc]

theorem processDateEntries_eq_chainTail (entries : List ChainEntry) :
    processDateEntries entries = chainTail entries [] true := by
  unfold processDateEntries
  rw [chainGo_eq_append]
  rfl

theorem chainTail_length :
    ∀ (rest pr : List ChainEntry) (f : Bool), (chainTail rest pr f).length = rest.length := by
  intro rest
  induction rest with
  | nil => intro pr f; rfl
  | cons e rest ih =>
    intro pr f
    by_cases he : e.is_scrum
    · simp only [chainTail, if_pos he, List.length_cons, ih]
    · simp only [chainTail, if_neg he, List.length_cons, ih]

theorem chainTail_cons_scrum (e : ChainEntry) (rest pr : List ChainEntry) (f : Bool)
    (he : e.is_scrum = true) :
    chainTail (e :: rest) pr f
      = processScrumEntry e :: chainTail rest (processScrumEntry e :: pr) f := by
  simp [chainTail, he]

theorem chainTail_cons_nonscrum (e : ChainEntry) (rest pr : List ChainEntry) (f : Bool)
    (he : e.is_scrum = false) :
    chainTail (e :: rest) pr f
      = chainStep e pr f :: chainTail rest (chainStep e pr f :: pr) false := by
  simp [chainTail, he, chainStep]

theorem chainStep_fields (e : ChainEntry) (pr : List ChainEntry) (f : Bool) :
    (chainStep e pr f).is_scrum = e.is_scrum ∧
    (chainStep e pr f).break_hours = e.break_hours ∧
    (chainStep e pr f).hours = e.hours ∧
    (chainStep e pr f).calculated_end
      = addHoursToTime (chainStep e pr f).calculated_start e.hours ∧
    (chainStep e pr f).calculated_start
      = (if f then getFirstNonScrumStartTime e
         else
           match findPreviousNonScrumEntry pr with
           | none => none
           | some prev => addHoursToTime prev.calculated_end e.break_hours) :=
  ⟨rfl, rfl, rfl, rfl, rfl⟩

theorem processScrumEntry_fields (e : ChainEntry) :
    (processScrumEntry e).is_scrum = e.is_scrum ∧
    (processScrumEntry e).hours = e.hours ∧
    (processScrumEntry e).calculated_end
      = addHoursToTime (processScrumEntry e).calculated_start e.hours ∧
    (processScrumEntry e).calculated_start
      = (match e.calculated_start with
         | none => some 600
         | some t => some t) :=
  ⟨rfl, rfl, rfl, rfl⟩

/-- Every entry of the chained output has end = start + duration. -/
theorem chainTail_end_eq :
    ∀ (rest pr : List ChainEntry) (f : Bool) (x : ChainEntry), x ∈ chainTail rest pr f →
      x.calculated_end = addHoursToTime x.calculated_start x.hours := by
  intro rest
  induction rest with
  | nil => intro pr f x hx; simp [chainTail] at hx
  | cons e rest ih =>
    intro pr f x hx
    by_cases he : e.is_scrum
    · rw [chainTail_cons_scrum e rest pr f he] at hx
      rcases List.mem_cons.mp hx with rfl | hmem
      · exact (processScrumEntry_fields e).2.2.1
      · exact ih _ _ x hmem
    · rw [chainTail_cons_nonscrum e rest pr f (by simpa using he)] at hx
      rcases List.mem_cons.mp hx with rfl | hmem
      · exact (chainStep_fields e pr f).2.2.2.1
      · exact ih _ _ x hmem

/-- A scrum element of the group is processed in place by
processScrumEntry, independently of the chain state. -/
theorem chainTail_scrum :
    ∀ (rest pr : List ChainEntry) (f : Bool) (i : Nat) (x : ChainEntry),
      rest[i]? = some x → x.is_scrum = true →
      (chainTail rest pr f)[i]? = some (processScrumEntry x) := by
  intro rest
  induction rest with
  | nil => intro pr f i x hx hs; simp at hx
  | cons e rest ih =>
    intro pr f i x hx hs
    by_cases he : e.is_scrum
    · rw [chainTail_cons_scrum e rest pr f he]
      cases i with
      | zero =>
        simp only [List.getElem?_cons_zero, Option.some.injEq] at hx
        subst hx
        simp
      | succ j =>
        simp only [List.getElem?_cons_succ] at hx ⊢
        exact ih _ _ j x hx hs
    · rw [chainTail_cons_nonscrum e rest pr f (by simpa using he)]
      cases i with
      | zero =>
        simp only [List.getElem?_cons_zero, Option.some.injEq] at hx
        subst hx
        exact absurd hs (by simpa using he)
      | succ j =>
        simp only [List.getElem?_cons_succ] at hx ⊢
        exact ih _ _ j x hx hs

theorem take_reverse_find_step (a : ChainEntry) (tl pr : List ChainEntry) (j : Nat) :
    ((((a :: tl).take (j + 1)).reverse.find? (fun y => !y.is_scrum)).or
        (pr.find? (fun y => !y.is_scrum)))
      = (((tl.take j).reverse.find? (fun y => !y.is_scrum)).or
          ((a :: pr).find? (fun y => !y.is_scrum))) := by
  rw [List.take_succ_cons, List.reverse_cons, List.find?_append, Option.or_assoc]
  congr 1
  cases ha : a.is_scrum <;> simp [List.find?_cons, ha]

/-- Every non-scrum entry that is not the chain anchor starts at the
calculated end of the nearest preceding non-scrum entry plus its own break
hours; the processed prefix pr participates as the pre-existing past. -/
theorem chainTail_start_eq :
    ∀ (rest pr : List ChainEntry) (f : Bool) (i : Nat) (x : ChainEntry),
      (chainTail rest pr f)[i]? = some x → x.is_scrum = false →
      (f = true → ∀ y ∈ pr, y.is_scrum = true) →
      ∀ p : ChainEntry,
        ((((chainTail rest pr f).take i).reverse.find? (fun y => !y.is_scrum)).or
            (pr.find? (fun y => !y.is_scrum))) = some p →
        x.calculated_start = addHoursToTime p.calculated_end x.break_hours := by
  intro rest
  induction rest with
  | nil => intro pr f i x hx; simp [chainTail] at hx
  | cons e rest ih =>
    intro pr f i x hx hns hinv p hp
    by_cases he : e.is_scrum
    · rw [chainTail_cons_scrum e rest pr f he] at hx hp
      cases i with
      | zero =>
        simp only [List.getElem?_cons_zero, Option.some.injEq] at hx
        subst hx
        have hns' : e.is_scrum = false := hns
        rw [he] at hns'
        exact Bool.noConfusion hns'
      | succ j =>
        simp only [List.getElem?_cons_succ] at hx
        rw [take_reverse_find_step] at hp
        refine ih (processScrumEntry e :: pr) f j x hx hns ?_ p ?_
        · intro hf y hy
          rcases List.mem_cons.mp hy with rfl | hmem
          · exact he
          · exact hinv hf y hmem
        · exact hp
    · have he' : e.is_scrum = false := by simpa using he
      rw [chainTail_cons_nonscrum e rest pr f he'] at hx hp
      cases i with
      | zero =>
        simp only [List.getElem?_cons_zero, Option.some.injEq] at hx
        subst hx
        simp only [List.take_zero, List.reverse_nil, List.find?_nil, Option.none_or] at hp
        cases f with
        | true =>
          have hnone : pr.find? (fun y => !y.is_scrum) = none := by
            rw [List.find?_eq_none]
            intro y hy
            simp [hinv rfl y hy]
          rw [hnone] at hp
          exact Option.noConfusion hp
        | false =>
          have hfp : findPreviousNonScrumEntry pr = some p := hp
          have hcs := (chainStep_fields e pr false).2.2.2.2
          rw [if_neg (by simp), hfp] at hcs
          rw [hcs]
          rfl
      | succ j =>
        simp only [List.getElem?_cons_succ] at hx
        rw [take_reverse_find_step] at hp
        refine ih (chainStep e pr f :: pr) false j x hx hns ?_ p ?_
        · intro hf
          exact Bool.noConfusion hf
        · exact hp

/-- Scrum entries do not participate in the chain: chaining commutes with
filtering them out. -/
theorem find?_filter_self (l : List ChainEntry) :
    (l.filter (fun y => !y.is_scrum)).find? (fun y => !y.is_scrum)
      = l.find? (fun y => !y.is_scrum) := by
  rw [List.find?_filter]
  congr 1
  funext a
  cases ha : (!a.is_scrum) <;> simp [ha]

theorem chainStep_filter (e : ChainEntry) (pr : List ChainEntry) (f : Bool) :
    chainStep e (pr.filter (fun y => !y.is_scrum)) f = chainStep e pr f := by
  unfold chainStep findPreviousNonScrumEntry
  rw [find?_filter_self]

theorem chainTail_filter :
    ∀ (rest pr : List ChainEntry) (f : Bool),
      (chainTail rest pr f).filter (fun y => !y.is_scrum)
        = chainTail (rest.filter (fun y => !y.is_scrum))
            (pr.filter (fun y => !y.is_scrum)) f := by
  intro rest
  induction rest with
  | nil => intro pr f; rfl
  | cons e rest ih =>
    intro pr f
    by_cases he : e.is_scrum
    · rw [chainTail_cons_scrum e rest pr f he]
      have h1 : ¬((fun y : ChainEntry => !y.is_scrum) (processScrumEntry e) = true) := by
        have : (processScrumEntry e).is_scrum = e.is_scrum := rfl
        simp [this, he]
      have h2 : ¬((fun y : ChainEntry => !y.is_scrum) e = true) := by simp [he]
      rw [List.filter_cons, if_neg h1, ih, List.filter_cons, if_neg h1,
          List.filter_cons, if_neg h2]
    · have he' : e.is_scrum = false := by simpa using he
      rw [chainTail_cons_nonscrum e rest pr f he']
      have h1 : (fun y : ChainEntry => !y.is_scrum) (chainStep e pr f) = true := by
        have : (chainStep e pr f).is_scrum = e.is_scrum := rfl
        simp [this, he']
      have h2 : (fun y : ChainEntry => !y.is_scrum) e = true := by simp [he']
      rw [List.filter_cons, if_pos h1, ih, List.filter_cons, if_pos h1,
          List.filter_cons, if_pos h2]
      rw [chainTail_cons_nonscrum e (rest.filter (fun y => !y.is_scrum))
            (pr.filter (fun y => !y.is_scrum)) f he']
      rw [chainStep_filter]

/-- C3: In a processed date group, every non-anchor non-scrum entry starts
at the calculated end of the nearest preceding non-scrum entry plus its own
break hours; every entry ends at its start plus its duration; the addition
is exact to the minute with fractional hours converted by round-half-up
(Math.round), wrapping at 24 h — in particular a 0.33-hour break adds
exactly 20 minutes. -/
theorem chain_start_end (entries : List ChainEntry) (i : Nat) (x : ChainEntry)
    (hx : (processDateEntries entries)[i]? = some x)
    (hns : x.is_scrum = false)
    (p : ChainEntry) (hp : prevNonScrum (processDateEntries entries) i = some p) :
    x.calculated_start = addHoursToTime p.calculated_end x.break_hours
    ∧ (∀ y ∈ processDateEntries entries,
        y.calculated_end = addHoursToTime y.calculated_start y.hours)
    ∧ (∀ (tm : Int) (h : ℚ), 0 ≤ tm → tm < 1440 → 0 ≤ h →
        addHoursToTime (some tm) h = some ((tm + jsRound (h * 60)) % 1440))
    ∧ jsRound ((33 : ℚ) / 100 * 60) = 20 := by
  refine ⟨?_, ?_, ?_, ?_⟩
  · rw [processDateEntries_eq_chainTail] at hx hp
    refine chainTail_start_eq entries [] true i x hx hns ?_ p ?_
    · intro _ y hy
      exact absurd hy (List.not_mem_nil y)
    · unfold prevNonScrum at hp
      simp only [List.find?_nil, Option.or_none]
      exact hp
  · intro y hy
    rw [processDateEntries_eq_chainTail] at hy
    exact chainTail_end_eq entries [] true y hy
  · intro tm h h0 h1 hh
    simp only [addHoursToTime]
    by_cases hz : h = 0
    · subst hz
      simp only [if_pos rfl]
      have hj : jsRound ((0 : ℚ) * 60) = 0 := by
        rw [jsRound_eq]
        norm_num
      rw [hj, Int.add_zero, Int.emod_eq_of_lt h0 h1]
      simp
    · simp only [if_neg hz]
      have hj : 0 ≤ jsRound (h * 60) := by
        rw [jsRound_eq]
        have h60 : (0 : ℚ) ≤ h * 60 := mul_nonneg hh (by norm_num)
        have : (0 : ℚ) ≤ h * 60 + 1/2 := by linarith
        exact Int.le_floor.mpr (by simpa using this)
      have hT0 : 0 ≤ tm + jsRound (h * 60) := by omega
      congr 1
      rw [Int.fdiv_eq_ediv _ (by norm_num),
          Int.tmod_eq_emod (Int.ediv_nonneg hT0 (by norm_num)) (by norm_num),
          Int.tmod_eq_emod hT0 (by norm_num)]
      omega
  · rw [jsRound_eq]
    norm_num

theorem chain_start_end_witness :
    ((processDateEntries chainDemo).getD 1 chainDflt).calculated_start
      = addHoursToTime ((processDateEntries chainDemo).headD chainDflt).calculated_end
          ((processDateEntries chainDemo).getD 1 chainDflt).break_hours
    ∧ addHoursToTime (some 810) 20 = some ((810 + jsRound (20 * 60)) % 1440) := by
  have h := chain_start_end chainDemo 1 ((processDateEntries chainDemo).getD 1 chainDflt)
    (by rfl) (by rfl) ((processDateEntries chainDemo).headD chainDflt) (by rfl)
  exact ⟨h.1, h.2.2.1 810 20 (by decide) (by decide) (by decide)⟩

/-- C4: In a processed date group, every scrum (recurring-meeting) entry is
processed in place: with no pre-set start it receives calculatedStart =
10:00 (600 minutes) at every position, and scrum entries neither advance
nor serve as the previous entry of the chain — chaining commutes with
removing them; the parser-side calculateStartTime likewise pins scrum
entries to 10:00 regardless of cursor and break. -/
theorem scrum_fixed_slot (entries : List ChainEntry) (i : Nat) (x : ChainEntry)
    (hx : entries[i]? = some x) (hs : x.is_scrum = true)
    (hcs : x.calculated_start = none) :
    (processDateEntries entries)[i]? = some (processScrumEntry x)
    ∧ (processScrumEntry x).calculated_start = some 600
    ∧ (processDateEntries entries).filter (fun y => !y.is_scrum)
        = processDateEntries (entries.filter (fun y => !y.is_scrum))
    ∧ (∀ startTime breakMinutes : Int, calculateStartTime true startTime breakMinutes = 600) := by
  refine ⟨?_, ?_, ?_, ?_⟩
  · rw [processDateEntries_eq_chainTail]
    exact chainTail_scrum entries [] true i x hx hs
  · have h1 := (processScrumEntry_fields x).2.2.2
    rw [h1, hcs]
  · rw [processDateEntries_eq_chainTail, processDateEntries_eq_chainTail, chainTail_filter]
    rfl
  · intro st bm
    rfl

theorem scrum_fixed_slot_witness :
    (processScrumEntry
        { is_scrum := true, hours := 1/2, break_hours := 0, start_time := none,
          user_set_start_time := false, calculated_start := none,
          calculated_end := none }).calculated_start = some 600
    ∧ calculateStartTime true 123 45 = 600 := by
  have h := scrum_fixed_slot scrumDemo 0
    { is_scrum := true, hours := 1/2, break_hours := 0, start_time := none,
      user_set_start_time := false, calculated_start := none, calculated_end := none }
    (by rfl) (by rfl) (by rfl)
  exact ⟨h.2.1, h.2.2.2 123 45⟩

theorem lookup_mem_snd {l : List (JStr × Nat)} {k : JStr} {v : Nat}
    (h : l.lookup k = some v) : v ∈ l.map Prod.snd := by
  induction l with
  | nil => exact Option.noConfusion h
  | cons p rest ih =>
    obtain ⟨k', v'⟩ := p
    rw [List.lookup] at h
    cases hbeq : (k == k') with
    | true =>
      rw [hbeq] at h
      injection h with h
      subst h
      simp
    | false =>
      rw [hbeq] at h
      simp only [List.map_cons, List.mem_cons]
      exact Or.inr (ih h)

theorem validateActualDate_overflow (y m d : Nat) (h1 : daysInMonth y m < d) :
    ∃ msg, validateActualDate y m d = .error msg := by
  have hmon : jsDateNormMonth y m d ≠ m := by
    unfold jsDateNormMonth
    rw [if_neg (by omega : ¬(d ≤ daysInMonth y m))]
    by_cases hm2 : m = 12
    · rw [if_pos hm2]
      omega
    · rw [if_neg hm2]
      omega
  unfold validateActualDate
  rw [if_neg (by tauto)]
  exact ⟨_, rfl⟩

/-- C6: A date token whose components do not form a real calendar date —
year outside 1900-3000, day below 1, or a day that does not exist in the
resolved month (checked by the round-trip through the platform calendar) —
is rejected by date parsing with an error instead of producing a canonical
date; "sept-31-2025" is the witness instance. -/
theorem invalid_date_rejected (monthStr : JStr) (m day year : Nat)
    (hm : getMonthNames.lookup (jsToLower monthStr) = some m)
    (hbad : year < 1900 ∨ 3000 < year ∨ day < 1 ∨ daysInMonth year m < day) :
    ∃ msg, parseDateComponents monthStr day year = .error msg := by
  have hmrange : 1 ≤ m ∧ m ≤ 12 := by
    have hv := lookup_mem_snd hm
    have hall : ∀ v ∈ getMonthNames.map Prod.snd, 1 ≤ v ∧ v ≤ 12 := by decide
    exact hall m hv
  have hdm31 : daysInMonth year m ≤ 31 := by
    unfold daysInMonth
    by_cases h2 : m = 2
    · rw [if_pos h2]
      by_cases hl : isLeapYear year = true
      · rw [if_pos hl]; omega
      · rw [if_neg hl]; omega
    · rw [if_neg h2]
      by_cases h4 : m = 4 ∨ m = 6 ∨ m = 9 ∨ m = 11
      · rw [if_pos h4]; omega
      · rw [if_neg h4]
  unfold parseDateComponents
  simp only [hm]
  by_cases hy : year < 1900 ∨ 3000 < year
  · have hcomp : validateDateComponents year m day = .error "Invalid year" := by
      unfold validateDateComponents
      rw [if_pos hy]
    unfold buildDateString
    rw [hcomp]
    exact ⟨_, rfl⟩
  · by_cases hd31 : day < 1 ∨ 31 < day
    · have hcomp : validateDateComponents year m day = .error "Invalid day" := by
        unfold validateDateComponents
        rw [if_neg hy, if_neg (by omega : ¬(m < 1 ∨ 12 < m)), if_pos hd31]
      unfold buildDateString
      rw [hcomp]
      exact ⟨_, rfl⟩
    · have hcomp : validateDateComponents year m day = .ok () := by
        unfold validateDateComponents
        rw [if_neg hy, if_neg (by omega : ¬(m < 1 ∨ 12 < m)), if_neg hd31]
      have hdm : daysInMonth year m < day := by
        rcases hbad with h | h | h | h
        · omega
        · omega
        · omega
        · exact h
      obtain ⟨msg, hmsg⟩ := validateActualDate_overflow year m day hdm
      unfold buildDateString
      rw [hcomp, hmsg]
      exact ⟨msg, rfl⟩

theorem invalid_date_rejected_witness :
    ∃ msg, parseDateComponents "sept".data 31 2025 = Except.error msg :=
  invalid_date_rejected "sept".data 9 31 2025 (by rfl)
    (Or.inr (Or.inr (Or.inr (by decide))))

/-- C8: A task without a linked work-item id whose remote duplicate lookup
fails with an error is placed in the new bucket (fail-open): the
categorizer succeeds and appends the entry to new instead of failing the
task or aborting. -/
theorem lookup_error_fail_open (lookup : Nat → JStr → Except String (Option WorkPackage))
    (projectMapping : JStr → Option Nat) (e : AnalysisEntry) (acc : AnalysisResult)
    (pid : Nat) (msg : String)
    (hwp : truthyId e.work_package_id = none)
    (hpid : truthyId (projectMapping e.project) = some pid)
    (hlk : lookup pid e.subject = .error msg) :
    categorizeEntry lookup projectMapping e acc
      = .ok { acc with new := acc.new ++ [e] } := by
  unfold categorizeEntry
  simp [hwp, hpid, hlk]

theorem lookup_error_fail_open_witness :
    categorizeEntry (fun _ _ => .error "network error") (fun _ => some 3)
        ⟨"P".data, "S".data, none, false⟩ ⟨[], [], [], []⟩
      = .ok ⟨[], [], [], [⟨"P".data, "S".data, none, false⟩]⟩ :=
  lookup_error_fail_open (fun _ _ => .error "network error") (fun _ => some 3)
    ⟨"P".data, "S".data, none, false⟩ ⟨[], [], [], []⟩ 3 "network error"
    (by rfl) (by rfl) (by rfl)

theorem zipWith_getElem?_elim {α β γ : Type} (f : α → β → γ) :
    ∀ (as : List α) (bs : List β) (i : Nat) (c : γ),
      (List.zipWith f as bs)[i]? = some c →
      ∃ a b, as[i]? = some a ∧ bs[i]? = some b ∧ c = f a b := by
  intro as
  induction as with
  | nil => intro bs i c h; simp at h
  | cons a as ih =>
    intro bs i c h
    cases bs with
    | nil => simp at h
    | cons b bs =>
      cases i with
      | zero =>
        simp only [List.zipWith_cons_cons, List.getElem?_cons_zero, Option.some.injEq] at h
        exact ⟨a, b, by simp, by simp, h.symm⟩
      | succ j =>
        simp only [List.zipWith_cons_cons, List.getElem?_cons_succ] at h ⊢
        exact ih bs j c h

theorem zipWith_getElem?_intro {α β γ : Type} (f : α → β → γ) :
    ∀ (as : List α) (bs : List β) (i : Nat) (a : α) (b : β),
      as[i]? = some a → bs[i]? = some b →
      (List.zipWith f as bs)[i]? = some (f a b) := by
  intro as
  induction as with
  | nil => intro bs i a b ha hb; simp at ha
  | cons a0 as ih =>
    intro bs i a b ha hb
    cases bs with
    | nil => simp at hb
    | cons b0 bs =>
      cases i with
      | zero =>
        simp only [List.getElem?_cons_zero, Option.some.injEq] at ha hb
        subst ha
        subst hb
        simp
      | succ j =>
        simp only [List.zipWith_cons_cons, List.getElem?_cons_succ] at ha hb ⊢
        exact ih bs j a b ha hb

theorem processAndTrackEntry_proj {σ α : Type} (step : σ → α → Except String (String × σ))
    (st : σ) (e : α) (stats : SvcStats) :
    (processAndTrackEntry step st e stats).2.1 = mkOutcome step st e ∧
    (processAndTrackEntry step st e stats).1 = stepState step st e := by
  unfold processAndTrackEntry mkOutcome stepState
  cases hs : step st e with
  | ok r => exact ⟨rfl, rfl⟩
  | error msg => exact ⟨rfl, rfl⟩

theorem processAllEntriesGo_results {σ α : Type} (step : σ → α → Except String (String × σ)) :
    ∀ (entries : List α) (st : σ) (stats : SvcStats),
      (processAllEntriesGo step st entries stats).2.1
        = List.zipWith (fun s e => mkOutcome step s e) (statesAlong step st entries) entries := by
  intro entries
  induction entries with
  | nil => intro st stats; rfl
  | cons e rest ih =>
    intro st stats
    show (processAndTrackEntry step st e stats).2.1
        :: (processAllEntriesGo step (processAndTrackEntry step st e stats).1 rest
            (processAndTrackEntry step st e stats).2.2).2.1
      = List.zipWith (fun s e => mkOutcome step s e) (statesAlong step st (e :: rest)) (e :: rest)
    rw [(processAndTrackEntry_proj step st e stats).1,
        (processAndTrackEntry_proj step st e stats).2,
        ih (stepState step st e) (processAndTrackEntry step st e stats).2.2]
    rfl

theorem statesAlong_length {σ α : Type} (step : σ → α → Except String (String × σ)) :
    ∀ (entries : List α) (st : σ), (statesAlong step st entries).length = entries.length := by
  intro entries
  induction entries with
  | nil => intro st; rfl
  | cons e rest ih =>
    intro st
    unfold statesAlong
    simp [ih]

theorem pATE_created {σ α : Type} (step : σ → α → Except String (String × σ))
    (st : σ) (e : α) (stats : SvcStats) :
    (processAndTrackEntry step st e stats).2.2.createdCount
      = stats.createdCount
        + (if ((processAndTrackEntry step st e stats).2.1.success
              && ((processAndTrackEntry step st e stats).2.1.resultType == some "new")) = true
           then 1 else 0) := by
  unfold processAndTrackEntry updateStats
  cases hs : step st e with
  | ok r =>
    by_cases hty : r.1 = "new"
    · simp [hty]
    · simp [hty]
  | error msg => simp

theorem pATE_updated {σ α : Type} (step : σ → α → Except String (String × σ))
    (st : σ) (e : α) (stats : SvcStats) :
    (processAndTrackEntry step st e stats).2.2.updatedCount
      = stats.updatedCount
        + (if ((processAndTrackEntry step st e stats).2.1.success
              && !((processAndTrackEntry step st e stats).2.1.resultType == some "new")) = true
           then 1 else 0) := by
  unfold processAndTrackEntry updateStats
  cases hs : step st e with
  | ok r =>
    by_cases hty : r.1 = "new"
    · simp [hty]
    · simp [hty]
  | error msg => simp

theorem pATE_error {σ α : Type} (step : σ → α → Except String (String × σ))
    (st : σ) (e : α) (stats : SvcStats) :
    (processAndTrackEntry step st e stats).2.2.errorCount
      = stats.errorCount
        + (if (!(processAndTrackEntry step st e stats).2.1.success) = true then 1 else 0) := by
  unfold processAndTrackEntry updateStats
  cases hs : step st e with
  | ok r =>
    by_cases hty : r.1 = "new"
    · simp [hty]
    · simp [hty]
  | error msg => simp

theorem processAllEntriesGo_created {σ α : Type} (step : σ → α → Except String (String × σ)) :
    ∀ (entries : List α) (st : σ) (stats : SvcStats),
      (processAllEntriesGo step st entries stats).2.2.createdCount
        = stats.createdCount + (processAllEntriesGo step st entries stats).2.1.countP
            (fun o => o.success && o.resultType == some "new") := by
  intro entries
  induction entries with
  | nil => intro st stats; rfl
  | cons e rest ih =>
    intro st stats
    show (processAllEntriesGo step (processAndTrackEntry step st e stats).1 rest
          (processAndTrackEntry step st e stats).2.2).2.2.createdCount
      = stats.createdCount
        + ((processAndTrackEntry step st e stats).2.1
            :: (processAllEntriesGo step (processAndTrackEntry step st e stats).1 rest
                (processAndTrackEntry step st e stats).2.2).2.1).countP
            (fun o => o.success && o.resultType == some "new")
    rw [List.countP_cons,
        ih (processAndTrackEntry step st e stats).1 (processAndTrackEntry step st e stats).2.2,
        pATE_created step st e stats]
    omega

theorem processAllEntriesGo_updated {σ α : Type} (step : σ → α → Except String (String × σ)) :
    ∀ (entries : List α) (st : σ) (stats : SvcStats),
      (processAllEntriesGo step st entries stats).2.2.updatedCount
        = stats.updatedCount + (processAllEntriesGo step st entries stats).2.1.countP
            (fun o => o.success && !(o.resultType == some "new")) := by
  intro entries
  induction entries with
  | nil => intro st stats; rfl
  | cons e rest ih =>
    intro st stats
    show (processAllEntriesGo step (processAndTrackEntry step st e stats).1 rest
          (processAndTrackEntry step st e stats).2.2).2.2.updatedCount
      = stats.updatedCount
        + ((processAndTrackEntry step st e stats).2.1
            :: (processAllEntriesGo step (processAndTrackEntry step st e stats).1 rest
                (processAndTrackEntry step st e stats).2.2).2.1).countP
            (fun o => o.success && !(o.resultType == some "new"))
    rw [List.countP_cons,
        ih (processAndTrackEntry step st e stats).1 (processAndTrackEntry step st e stats).2.2,
        pATE_updated step st e stats]
    omega

theorem processAllEntriesGo_error {σ α : Type} (step : σ → α → Except String (String × σ)) :
    ∀ (entries : List α) (st : σ) (stats : SvcStats),
      (processAllEntriesGo step st entries stats).2.2.errorCount
        = stats.errorCount + (processAllEntriesGo step st entries stats).2.1.countP
            (fun o => !o.success) := by
  intro entries
  induction entries with
  | nil => intro st stats; rfl
  | cons e rest ih =>
    intro st stats
    show (processAllEntriesGo step (processAndTrackEntry step st e stats).1 rest
          (processAndTrackEntry step st e stats).2.2).2.2.errorCount
      = stats.errorCount
        + ((processAndTrackEntry step st e stats).2.1
            :: (processAllEntriesGo step (processAndTrackEntry step st e stats).1 rest
                (processAndTrackEntry step st e stats).2.2).2.1).countP
            (fun o => !o.success)
    rw [List.countP_cons,
        ih (processAndTrackEntry step st e stats).1 (processAndTrackEntry step st e stats).2.2,
        pATE_error step st e stats]
    omega

theorem countP_three_partition {γ : Type} (p1 p2 p3 : γ → Bool)
    (h : ∀ x, (p1 x).toNat + (p2 x).toNat + (p3 x).toNat = 1) :
    ∀ l : List γ, l.countP p1 + l.countP p2 + l.countP p3 = l.length := by
  intro l
  induction l with
  | nil => rfl
  | cons a l ih =>
    simp only [List.countP_cons, List.length_cons]
    have ha := h a
    cases hp1 : p1 a <;> cases hp2 : p2 a <;> cases hp3 : p3 a <;>
      simp only [hp1, hp2, hp3, Bool.toNat_true, Bool.toNat_false, eq_self_iff_true,
        Bool.false_eq_true, if_true, if_false] at ha ⊢ <;>
      omega

/-- C9: processAllEntries produces exactly one result per entry, in input
order, and the report's counters satisfy createdCount = successful "new"
results, updatedCount = successful non-"new" results, errorCount = failed
results, createdCount + updatedCount + errorCount = n, and successCount =
createdCount + updatedCount. -/
theorem processAllEntries_counters {σ α : Type} (step : σ → α → Except String (String × σ))
    (s0 : σ) (entries : List α) :
    ((processAllEntries step s0 entries).2.results).length = entries.length
    ∧ (∀ (i : Nat) (x : SvcOutcome α),
        (processAllEntries step s0 entries).2.results[i]? = some x →
        ∃ e, entries[i]? = some e ∧ x.entry = e)
    ∧ (processAllEntries step s0 entries).2.createdCount
        = (processAllEntries step s0 entries).2.results.countP
            (fun o => o.success && o.resultType == some "new")
    ∧ (processAllEntries step s0 entries).2.updatedCount
        = (processAllEntries step s0 entries).2.results.countP
            (fun o => o.success && !(o.resultType == some "new"))
    ∧ (processAllEntries step s0 entries).2.errorCount
        = (processAllEntries step s0 entries).2.results.countP (fun o => !o.success)
    ∧ (processAllEntries step s0 entries).2.createdCount
        + (processAllEntries step s0 entries).2.updatedCount
        + (processAllEntries step s0 entries).2.errorCount = entries.length
    ∧ (processAllEntries step s0 entries).2.successCount
        = (processAllEntries step s0 entries).2.createdCount
          + (processAllEntries step s0 entries).2.updatedCount
    ∧ (processAllEntries step s0 entries).2.totalEntries = entries.length := by
  have hres : (processAllEntries step s0 entries).2.results
      = List.zipWith (fun s e => mkOutcome step s e) (statesAlong step s0 entries) entries :=
    processAllEntriesGo_results step entries s0 ⟨0, 0, 0⟩
  have hlen : ((processAllEntries step s0 entries).2.results).length = entries.length := by
    rw [hres, List.length_zipWith, statesAlong_length]
    omega
  have hcre := processAllEntriesGo_created step entries s0 ⟨0, 0, 0⟩
  have hupd := processAllEntriesGo_updated step entries s0 ⟨0, 0, 0⟩
  have herr := processAllEntriesGo_error step entries s0 ⟨0, 0, 0⟩
  have hpart : ∀ x : SvcOutcome α,
      ((fun o : SvcOutcome α => o.success && o.resultType == some "new") x).toNat
      + ((fun o : SvcOutcome α => o.success && !(o.resultType == some "new")) x).toNat
      + ((fun o : SvcOutcome α => !o.success) x).toNat = 1 := by
    intro x
    cases hsx : x.success <;> cases hn : (x.resultType == some "new") <;>
      simp [hsx, hn]
  refine ⟨hlen, ?_, ?_, ?_, ?_, ?_, rfl, rfl⟩
  · intro i x hx
    rw [hres] at hx
    obtain ⟨s, e, hs, he, hc⟩ := zipWith_getElem?_elim _ _ _ _ _ hx
    refine ⟨e, he, ?_⟩
    subst hc
    unfold mkOutcome
    cases hstep : step s e <;> rfl
  · simpa using hcre
  · simpa using hupd
  · simpa using herr
  · have := countP_three_partition
      (fun o : SvcOutcome α => o.success && o.resultType == some "new")
      (fun o : SvcOutcome α => o.success && !(o.resultType == some "new"))
      (fun o : SvcOutcome α => !o.success) hpart
      ((processAllEntries step s0 entries).2.results)
    have h1 : (processAllEntries step s0 entries).2.createdCount
        = (processAllEntries step s0 entries).2.results.countP
            (fun o => o.success && o.resultType == some "new") := by simpa using hcre
    have h2 : (processAllEntries step s0 entries).2.updatedCount
        = (processAllEntries step s0 entries).2.results.countP
            (fun o => o.success && !(o.resultType == some "new")) := by simpa using hupd
    have h3 : (processAllEntries step s0 entries).2.errorCount
        = (processAllEntries step s0 entries).2.results.countP
            (fun o => !o.success) := by simpa using herr
    rw [h1, h2, h3, ← hlen]
    exact this

theorem processAllEntries_counters_witness :
    ∃ e, ([0, 1] : List Nat)[0]? = some e
      ∧ ({ success := false, entry := 0, resultType := none,
           error := some "boom" } : SvcOutcome Nat).entry = e :=
  (processAllEntries_counters
      (fun (u : Unit) (n : Nat) =>
        if n = 0 then Except.error "boom" else Except.ok ("new", u))
      () [0, 1]).2.1 0
    { success := false, entry := 0, resultType := none, error := some "boom" }
    (by rfl)

/-- C7: Any exception thrown while processing entry k is caught locally and
recorded as a failed outcome carrying the thrown message; the loop still
produces exactly one outcome per entry (entries k+1..n are attempted), and
the aggregate errorCount counts exactly the failed outcomes. -/
theorem processAllEntries_error_continuation {σ α : Type}
    (step : σ → α → Except String (String × σ)) (s0 : σ) (entries : List α) :
    ((processAllEntries step s0 entries).2.results).length = entries.length
    ∧ (∀ (i : Nat) (st : σ) (e : α) (msg : String),
        (statesAlong step s0 entries)[i]? = some st →
        entries[i]? = some e →
        step st e = .error msg →
        (processAllEntries step s0 entries).2.results[i]?
          = some { success := false, entry := e, resultType := none, error := some msg })
    ∧ (processAllEntries step s0 entries).2.errorCount
        = (processAllEntries step s0 entries).2.results.countP (fun o => !o.success) := by
  have hres : (processAllEntries step s0 entries).2.results
      = List.zipWith (fun s e => mkOutcome step s e) (statesAlong step s0 entries) entries :=
    processAllEntriesGo_results step entries s0 ⟨0, 0, 0⟩
  refine ⟨?_, ?_, ?_⟩
  · rw [hres, List.length_zipWith, statesAlong_length]
    omega
  · intro i st e msg hst he hstep
    rw [hres]
    have hz := zipWith_getElem?_intro (fun s e => mkOutcome step s e)
      (statesAlong step s0 entries) entries i st e hst he
    rw [hz]
    show some (mkOutcome step st e)
      = some { success := false, entry := e, resultType := none, error := some msg }
    unfold mkOutcome
    rw [hstep]
  · exact (by simpa using processAllEntriesGo_error step entries s0 ⟨0, 0, 0⟩)

theorem processAllEntries_error_continuation_witness :
    (processAllEntries
        (fun (u : Unit) (n : Nat) =>
          if n = 0 then Except.error "boom" else Except.ok ("new", u))
        () [0, 1]).2.results[0]?
      = some { success := false, entry := 0, resultType := none, error := some "boom" } :=
  (processAllEntries_error_continuation
      (fun (u : Unit) (n : Nat) =>
        if n = 0 then Except.error "boom" else Except.ok ("new", u))
      () [0, 1]).2.1 0 () 0 "boom" (by rfl) (by rfl) (by rfl)
